import Mathlib

/-!
Verification of the wiki knowledge-graph core: a shallow embedding of
`graph_extractor.py` (`chunk_text`, `merge_extraction_results`) and
`graph_database.py` (`GraphDatabase.store_extraction_result`) together with
theorems about the embedded operations.

Conventions of the embedding:
* Python strings become Lean `String`; `str.lower()` and `str.strip()`
  become the character-list functions `lower` and `strip` below (kept
  kernel-computable so that concrete runs of the model reduce).
* The PostgreSQL tables become lists of rows; `SELECT ... LIMIT 1` without
  `ORDER BY` is modelled as `List.find?` in insertion order; `INSERT` appends.
* The per-call Python dict `entity_id_map` becomes a function
  `String → Option Nat` updated pointwise (later writes win, as in a dict).
* Fallible database operations return `Except String _`; an `error` result
  models a raised exception, after which `get_connection` rolls the
  transaction back, so the caller's database state is unchanged.
* Sentence segmentation (spaCy's sentencizer) is an external collaborator;
  the chunker embedding takes its output, a list of sentences, and performs
  the stripping/filtering that the source itself does.
-/

namespace Wiki

/-- Python's `str.lower()` (character-wise lowering). -/
def lower (s : String) : String := ⟨s.data.map Char.toLower⟩

/-- Python's `str.strip()`: drop whitespace from both ends. -/
def strip (s : String) : String :=
  ⟨((s.data.dropWhile Char.isWhitespace).reverse.dropWhile
      Char.isWhitespace).reverse⟩

instance {ε α : Type} [DecidableEq ε] [DecidableEq α] :
    DecidableEq (Except ε α) := fun a b =>
  match a, b with
  | .ok x, .ok y =>
      if h : x = y then .isTrue (by rw [h])
      else .isFalse (by intro hc; cases hc; exact h rfl)
  | .error x, .error y =>
      if h : x = y then .isTrue (by rw [h])
      else .isFalse (by intro hc; cases hc; exact h rfl)
  | .ok _, .error _ => .isFalse (by intro hc; cases hc)
  | .error _, .ok _ => .isFalse (by intro hc; cases hc)

/-- An extraction result: entities as `(text, label)` pairs and relations as
`(head_text, label, tail_text)` triples (`graph_extractor.ExtractionResult`). -/
structure ExtractionResult where
  entities : List (String × String)
  relations : List (String × String × String)
deriving DecidableEq, Repr

/-- A row of the `entities` table (the columns `store_extraction_result`
reads or writes). -/
structure EntityRow where
  id : Nat
  name : String
  entity_type : String
  normalized_name : String
  document_id : String
  metadata : String
deriving DecidableEq, Repr

/-- A row of the `relationships` table (the columns `store_extraction_result`
reads or writes). -/
structure RelationshipRow where
  head_entity_id : Nat
  tail_entity_id : Nat
  relation_type : String
  source_text : String
  metadata : String
deriving DecidableEq, Repr

/-- The database state: the two tables plus the `entities.id` sequence. -/
structure DB where
  entities : List EntityRow
  relationships : List RelationshipRow
  next_entity_id : Nat
deriving DecidableEq, Repr

/-- The empty database. -/
def emptyDB : DB := ⟨[], [], 0⟩

/-- The dictionary returned by `store_extraction_result`. -/
structure StoreResult where
  entities_stored : Nat
  relations_stored : Nat
  total_entities : Nat
  total_relations : Nat
deriving DecidableEq, Repr

/-- `entity_text.lower().strip()` from `store_extraction_result`. -/
def normalize (s : String) : String := strip (lower s)

/-- The `WHERE normalized_name = %s AND entity_type = %s` filter of the
entity lookup. -/
def entityMatch (nn ty : String) (e : EntityRow) : Bool :=
  e.normalized_name = nn && e.entity_type = ty

/-- The entity loop of `store_extraction_result` (lines 94–119): for each
`(entity_text, entity_type)`, look up an existing row by
`(normalized_name, entity_type)`; reuse its id if found, otherwise insert a
new row and count it.  Returns the updated database, the `entity_id_map`,
and `entities_stored`. -/
def storeEntities (doc_id metadata : String) :
    List (String × String) → DB → (String → Option Nat) → Nat →
    DB × (String → Option Nat) × Nat
  | [], db, emap, stored => (db, emap, stored)
  | (entity_text, entity_type) :: rest, db, emap, stored =>
    let normalized_name := normalize entity_text
    match db.entities.find? (entityMatch normalized_name entity_type) with
    | some e =>
        storeEntities doc_id metadata rest db
          (fun t => if t = entity_text then some e.id else emap t) stored
    | none =>
        let row : EntityRow :=
          ⟨db.next_entity_id, entity_text, entity_type, normalized_name,
            doc_id, metadata⟩
        storeEntities doc_id metadata rest
          ⟨db.entities ++ [row], db.relationships, db.next_entity_id + 1⟩
          (fun t => if t = entity_text then some row.id else emap t)
          (stored + 1)

/-- The `WHERE head_entity_id = %s AND tail_entity_id = %s AND
relation_type = %s` filter of the relationship lookup. -/
def relationMatch (hid tid : Nat) (rt : String) (r : RelationshipRow) : Bool :=
  r.head_entity_id = hid && r.tail_entity_id = tid && r.relation_type = rt

/-- Modelled from the spec: the `INSERT INTO relationships` statement runs
against a schema whose DDL is not part of the Python sources; per §6 of the
spec the table carries the check constraint
`head_entity_id <> tail_entity_id` (corroborated by
`test_graph_schema.test_relationship_constraints`, which asserts that a
self-relationship insert raises `IntegrityError`).  The insert therefore
fails when head and tail coincide and appends the row otherwise. -/
def insertRelationship (db : DB) (row : RelationshipRow) : Except String DB :=
  if row.head_entity_id = row.tail_entity_id then
    .error "relationships_check: head_entity_id <> tail_entity_id"
  else
    .ok { db with relationships := db.relationships ++ [row] }

/-- The relation loop of `store_extraction_result` (lines 124–149): skip
tuples whose head or tail text is absent from `entity_id_map`; skip tuples
whose `(head_id, tail_id, relation_type)` already has a row; otherwise
insert (which raises on a self-relationship) and count.  An `error` result
models the raised exception propagating out of the loop. -/
def storeRelations (metadata : String) (emap : String → Option Nat) :
    List (String × String × String) → DB → Nat → Except String (DB × Nat)
  | [], db, stored => .ok (db, stored)
  | (head_text, relation_type, tail_text) :: rest, db, stored =>
    match emap head_text, emap tail_text with
    | some head_entity_id, some tail_entity_id =>
      match db.relationships.find?
          (relationMatch head_entity_id tail_entity_id relation_type) with
      | some _ => storeRelations metadata emap rest db stored
      | none =>
        let source_text := head_text ++ " " ++ relation_type ++ " " ++ tail_text
        match insertRelationship db
            ⟨head_entity_id, tail_entity_id, relation_type, source_text,
              metadata⟩ with
        | .ok db' => storeRelations metadata emap rest db' (stored + 1)
        | .error e => .error e
    | _, _ => storeRelations metadata emap rest db stored

/-- `GraphDatabase.store_extraction_result(doc_id, title, extraction_result,
metadata)`: run the entity loop, then the relation loop, and return the four
counters.  `title` is accepted and unused, as in the source.  An `error`
result models an exception reaching `get_connection`, which rolls the
transaction back, so the caller's database is unchanged in that case. -/
def store_extraction_result (db : DB) (doc_id title : String)
    (extraction_result : ExtractionResult) (metadata : String) :
    Except String (DB × StoreResult) :=
  match storeRelations metadata
      (storeEntities doc_id metadata extraction_result.entities db
        (fun _ => none) 0).2.1
      extraction_result.relations
      (storeEntities doc_id metadata extraction_result.entities db
        (fun _ => none) 0).1 0 with
  | .ok (db2, relations_stored) =>
      .ok (db2,
        ⟨(storeEntities doc_id metadata extraction_result.entities db
            (fun _ => none) 0).2.2, relations_stored,
          extraction_result.entities.length,
          extraction_result.relations.length⟩)
  | .error e => .error e

/-- The schema invariant on the `entities` table: at most one row per
`(normalized_name, entity_type)` pair. -/
def EntIdentUnique (db : DB) : Prop :=
  db.entities.Pairwise
    (fun a b => ¬(a.normalized_name = b.normalized_name ∧
      a.entity_type = b.entity_type))

/-- `len(sentence) + 1` — the size `chunk_text` accounts to a sentence
(`+1` for the joining space). -/
def sentSize (s : String) : Nat := s.length + 1

/-- Total accounted size of a list of sentences. -/
def sentencesSize (l : List String) : Nat := (l.map sentSize).sum

/-- The overlap computation of `chunk_text` (lines 69–79): walk the current
chunk from its end, prepending sentences while the accumulated size stays
within `chunk_overlap`, stopping at the first sentence that does not fit.
The argument is the reversed current chunk; returns `(overlap_chunk,
overlap_size)`. -/
def buildOverlap (chunk_overlap : Nat) :
    List String → List String → Nat → List String × Nat
  | [], acc, accSize => (acc, accSize)
  | sent :: rest, acc, accSize =>
    if accSize + sentSize sent ≤ chunk_overlap then
      buildOverlap chunk_overlap rest (sent :: acc) (accSize + sentSize sent)
    else (acc, accSize)

/-- The main loop of `chunk_text` (lines 58–89), producing each chunk as its
list of sentences: greedily accumulate sentences; when the next sentence
would push the current chunk past `chunk_size` (and the chunk is nonempty),
emit it and seed the next chunk with the overlap suffix; emit the trailing
chunk if nonempty. -/
def chunkLoop (chunk_size chunk_overlap : Nat) :
    List String → List String → Nat → List (List String)
  | [], current_chunk, _ =>
      if current_chunk.isEmpty then [] else [current_chunk]
  | sentence :: rest, current_chunk, current_size =>
    let sentence_size := sentSize sentence
    if current_size + sentence_size > chunk_size ∧ current_chunk ≠ [] then
      let ov := buildOverlap chunk_overlap current_chunk.reverse [] 0
      current_chunk ::
        chunkLoop chunk_size chunk_overlap rest (ov.1 ++ [sentence])
          (ov.2 + sentence_size)
    else
      chunkLoop chunk_size chunk_overlap rest (current_chunk ++ [sentence])
        (current_size + sentence_size)

/-- `chunk_text` at the granularity of sentence lists: strip each sentence
and drop the empty ones (line 53), then run the chunking loop.  The input is
the sentence sequence produced by the external sentence segmenter. -/
def chunkSentenceLists (sentences : List String)
    (chunk_size chunk_overlap : Nat) : List (List String) :=
  chunkLoop chunk_size chunk_overlap
    ((sentences.map strip).filter (fun s => s ≠ "")) [] 0

/-- Python's `" ".join`. -/
def joinSp : List String → String
  | [] => ""
  | [s] => s
  | s :: rest => s ++ " " ++ joinSp rest

/-- `chunk_text(text, chunk_size, chunk_overlap)` with the sentence
segmentation already applied: each emitted chunk is the space-join of its
sentence list. -/
def chunk_text (sentences : List String) (chunk_size chunk_overlap : Nat) :
    List String :=
  (chunkSentenceLists sentences chunk_size chunk_overlap).map joinSp

/-- `merge_extraction_results(results)`: union the entity pairs and the
relation triples of all results as sets (exact-tuple deduplication) and
return them as lists; the list order is an artifact of the set
representation, as in the Python original. -/
def merge_extraction_results (results : List ExtractionResult) :
    ExtractionResult :=
  let all_entities : List (String × String) :=
    (results.foldl (fun acc r => acc ++ r.entities) []).dedup
  let all_relations : List (String × String × String) :=
    (results.foldl (fun acc r => acc ++ r.relations) []).dedup
  ⟨all_entities, all_relations⟩

/-! ### General list helpers -/

theorem find?_append_of_some {α} {p : α → Bool} {l₁ : List α} (l₂ : List α)
    {a : α} (h : l₁.find? p = some a) : (l₁ ++ l₂).find? p = some a := by
  induction l₁ with
  | nil => simp [List.find?] at h
  | cons x xs ih =>
    rw [List.cons_append]
    cases hx : p x with
    | true =>
        rw [List.find?_cons_of_pos _ hx] at h ⊢
        exact h
    | false =>
        rw [List.find?_cons_of_neg _ (by simp [hx])] at h ⊢
        exact ih h

theorem find?_append_of_none {α} {p : α → Bool} {l₁ : List α} (l₂ : List α)
    (h : l₁.find? p = none) : (l₁ ++ l₂).find? p = l₂.find? p := by
  induction l₁ with
  | nil => simp
  | cons x xs ih =>
    rw [List.cons_append]
    cases hx : p x with
    | true => rw [List.find?_cons_of_pos _ hx] at h; exact absurd h (by simp)
    | false =>
        rw [List.find?_cons_of_neg _ (by simp [hx])] at h ⊢
        exact ih h

theorem mem_foldl_append {α β : Type} (f : β → List α) (rs : List β)
    (init : List α) (a : α) :
    a ∈ rs.foldl (fun acc r => acc ++ f r) init ↔
      a ∈ init ∨ ∃ r ∈ rs, a ∈ f r := by
  induction rs generalizing init with
  | nil => simp
  | cons r rs ih =>
    rw [List.foldl_cons, ih]
    simp [List.mem_append, or_assoc]

/-! ### C7: merging is exact-tuple set union -/

/-- C7: `merge_extraction_results` returns a result whose entity list
contains a `(text, type)` pair iff that exact pair occurs in some input
result, with no duplicates, and whose relation list contains a
`(head, relationType, tail)` triple iff that exact triple occurs in some
input result, with no duplicates. -/
theorem merge_extraction_results_set_union (results : List ExtractionResult) :
    (∀ p : String × String,
        p ∈ (merge_extraction_results results).entities ↔
          ∃ r ∈ results, p ∈ r.entities) ∧
    (merge_extraction_results results).entities.Nodup ∧
    (∀ t : String × String × String,
        t ∈ (merge_extraction_results results).relations ↔
          ∃ r ∈ results, t ∈ r.relations) ∧
    (merge_extraction_results results).relations.Nodup := by
  refine ⟨fun p => ?_, List.nodup_dedup _, fun t => ?_, List.nodup_dedup _⟩
  · rw [show (merge_extraction_results results).entities =
        (results.foldl (fun acc r => acc ++ r.entities) []).dedup from rfl,
      List.mem_dedup, mem_foldl_append]
    simp
  · rw [show (merge_extraction_results results).relations =
        (results.foldl (fun acc r => acc ++ r.relations) []).dedup from rfl,
      List.mem_dedup, mem_foldl_append]
    simp

/-! ### Chunker lemmas -/

theorem sentencesSize_cons (s : String) (l : List String) :
    sentencesSize (s :: l) = sentSize s + sentencesSize l := by
  simp [sentencesSize]

theorem sentencesSize_append (a b : List String) :
    sentencesSize (a ++ b) = sentencesSize a + sentencesSize b := by
  simp [sentencesSize]

theorem buildOverlap_le (ov : Nat) :
    ∀ (l acc : List String) (accSize : Nat), accSize ≤ ov →
      (buildOverlap ov l acc accSize).2 ≤ ov := by
  intro l
  induction l with
  | nil => intro acc accSize h; simpa [buildOverlap] using h
  | cons s rest ih =>
    intro acc accSize h
    rw [buildOverlap]
    split
    · exact ih _ _ (by assumption)
    · exact h

theorem buildOverlap_size (ov : Nat) :
    ∀ (l acc : List String) (accSize : Nat), accSize = sentencesSize acc →
      (buildOverlap ov l acc accSize).2 =
        sentencesSize (buildOverlap ov l acc accSize).1 := by
  intro l
  induction l with
  | nil => intro acc accSize h; simpa [buildOverlap] using h
  | cons s rest ih =>
    intro acc accSize h
    rw [buildOverlap]
    split
    · exact ih _ _ (by rw [sentencesSize_cons, h]; omega)
    · exact h

theorem chunkLoop_chunk_sizes (cs ov : Nat) :
    ∀ (rest cur : List String) (curSize : Nat),
      (∀ s ∈ rest, sentSize s ≤ cs + 1) →
      curSize = sentencesSize cur →
      curSize ≤ cs + ov + 1 →
      ∀ c ∈ chunkLoop cs ov rest cur curSize,
        c ≠ [] ∧ sentencesSize c ≤ cs + ov + 1 := by
  intro rest
  induction rest with
  | nil =>
    intro cur curSize _ hsz hle c hc
    rw [chunkLoop] at hc
    split at hc
    · simp at hc
    · rename_i hne
      simp only [List.mem_singleton] at hc
      subst hc
      exact ⟨by simpa [List.isEmpty_iff] using hne, hsz ▸ hle⟩
  | cons sent rest ih =>
    intro cur curSize hrest hsz hle c hc
    rw [chunkLoop] at hc
    split at hc
    · rename_i hcond
      simp only [List.mem_cons] at hc
      rcases hc with rfl | hc
      · exact ⟨hcond.2, hsz ▸ hle⟩
      · refine ih _ _ (fun s hs => hrest s (List.mem_cons_of_mem _ hs)) ?_ ?_ c hc
        · rw [sentencesSize_append, sentencesSize_cons,
            ← buildOverlap_size ov cur.reverse [] 0 (by simp [sentencesSize])]
          simp [sentencesSize]
        · have h1 : (buildOverlap ov cur.reverse [] 0).2 ≤ ov :=
            buildOverlap_le ov cur.reverse [] 0 (Nat.zero_le ov)
          have h2 : sentSize sent ≤ cs + 1 := hrest sent (List.mem_cons_self _ _)
          omega
    · rename_i hcond
      refine ih _ _ (fun s hs => hrest s (List.mem_cons_of_mem _ hs)) ?_ ?_ c hc
      · rw [sentencesSize_append, sentencesSize_cons, hsz]
        simp [sentencesSize]
      · rw [Classical.not_and_iff_or_not_not] at hcond
        rcases hcond with hcond | hcond
        · have h2 : sentSize sent ≤ cs + 1 := hrest sent (List.mem_cons_self _ _)
          omega
        · have : cur = [] := by
            by_contra hne; exact hcond hne
          rw [hsz, this]
          have h2 : sentSize sent ≤ cs + 1 := hrest sent (List.mem_cons_self _ _)
          simp [sentencesSize]
          omega

theorem chunkLoop_covers_cur (cs ov : Nat) :
    ∀ (rest cur : List String) (curSize : Nat) (s : String),
      s ∈ cur → cur ≠ [] →
      ∃ c ∈ chunkLoop cs ov rest cur curSize, s ∈ c := by
  intro rest
  induction rest with
  | nil =>
    intro cur curSize s hs hne
    rw [chunkLoop]
    rw [if_neg (by simpa [List.isEmpty_iff] using hne)]
    exact ⟨cur, List.mem_singleton_self _, hs⟩
  | cons sent rest ih =>
    intro cur curSize s hs hne
    rw [chunkLoop]
    split
    · exact ⟨cur, List.mem_cons_self _ _, hs⟩
    · exact ih _ _ s (List.mem_append_left _ hs) (by simp)

theorem chunkLoop_covers_rest (cs ov : Nat) :
    ∀ (rest cur : List String) (curSize : Nat) (s : String),
      s ∈ rest →
      ∃ c ∈ chunkLoop cs ov rest cur curSize, s ∈ c := by
  intro rest
  induction rest with
  | nil => intro _ _ _ hs; simp at hs
  | cons sent rest ih =>
    intro cur curSize s hs
    rcases List.mem_cons.1 hs with rfl | hs
    · rw [chunkLoop]
      split
      · obtain ⟨c, hc, hsc⟩ :=
          chunkLoop_covers_cur cs ov rest _ _ s
            (List.mem_append_right _ (List.mem_singleton_self _)) (by simp)
        exact ⟨c, List.mem_cons_of_mem _ hc, hsc⟩
      · exact chunkLoop_covers_cur cs ov rest _ _ s
          (List.mem_append_right _ (List.mem_singleton_self _)) (by simp)
    · rw [chunkLoop]
      split
      · obtain ⟨c, hc, hsc⟩ := ih _ _ s hs
        exact ⟨c, List.mem_cons_of_mem _ hc, hsc⟩
      · exact ih _ _ s hs

theorem chunkLoop_ne_nil (cs ov : Nat) :
    ∀ (rest cur : List String) (curSize : Nat), cur ≠ [] ∨ rest ≠ [] →
      chunkLoop cs ov rest cur curSize ≠ [] := by
  intro rest
  induction rest with
  | nil =>
    intro cur curSize h
    rcases h with h | h
    · rw [chunkLoop, if_neg (by simpa [List.isEmpty_iff] using h)]
      simp
    · exact absurd rfl h
  | cons sent rest ih =>
    intro cur curSize _
    rw [chunkLoop]
    split
    · simp
    · exact ih _ _ (Or.inl (by simp))

theorem joinSp_length :
    ∀ l : List String, l ≠ [] → (joinSp l).length + 1 = sentencesSize l := by
  intro l
  induction l with
  | nil => intro h; exact absurd rfl h
  | cons s rest ih =>
    intro _
    cases rest with
    | nil => simp [joinSp, sentencesSize, sentSize]
    | cons s' rest' =>
      have hne : s' :: rest' ≠ [] := by simp
      rw [show joinSp (s :: s' :: rest') = s ++ " " ++ joinSp (s' :: rest')
          from rfl, sentencesSize_cons]
      rw [String.length_append, String.length_append, ← ih hne]
      have hsp : (" " : String).length = 1 := by decide
      rw [hsp]
      simp [sentSize]
      omega

theorem chunkLoop_count (cs ov bound : Nat) (hov : ov + cs + 1 ≤ bound) :
    ∀ (rest cur : List String) (curSize : Nat),
      (∀ s ∈ rest, sentSize s ≤ cs + 1) →
      (cur = [] → curSize = 0) →
      curSize ≤ bound →
      curSize + sentencesSize rest ≤
        bound * (chunkLoop cs ov rest cur curSize).length := by
  intro rest
  induction rest with
  | nil =>
    intro cur curSize _ hnil hle
    rw [chunkLoop]
    split
    · rename_i he
      rw [hnil (by simpa [List.isEmpty_iff] using he)]
      simp [sentencesSize]
    · simpa [sentencesSize] using hle
  | cons sent rest ih =>
    intro cur curSize hrest hnil hle
    have hsent : sentSize sent ≤ cs + 1 := hrest sent (List.mem_cons_self _ _)
    rw [chunkLoop, sentencesSize_cons]
    split
    · rename_i hcond
      have hovle : (buildOverlap ov cur.reverse [] 0).2 ≤ ov :=
        buildOverlap_le ov cur.reverse [] 0 (Nat.zero_le ov)
      have hrec := ih ((buildOverlap ov cur.reverse [] 0).1 ++ [sent])
        ((buildOverlap ov cur.reverse [] 0).2 + sentSize sent)
        (fun s hs => hrest s (List.mem_cons_of_mem _ hs))
        (by intro h; simp at h)
        (by omega)
      rw [List.length_cons]
      have : bound * ((chunkLoop cs ov rest
          ((buildOverlap ov cur.reverse [] 0).1 ++ [sent])
          ((buildOverlap ov cur.reverse [] 0).2 + sentSize sent)).length + 1) =
          bound * (chunkLoop cs ov rest
          ((buildOverlap ov cur.reverse [] 0).1 ++ [sent])
          ((buildOverlap ov cur.reverse [] 0).2 + sentSize sent)).length
          + bound := by ring
      rw [this]
      omega
    · rename_i hcond
      have hcsize : curSize + sentSize sent ≤ bound := by
        rw [Classical.not_and_iff_or_not_not] at hcond
        rcases hcond with hcond | hcond
        · omega
        · have : cur = [] := by by_contra hne; exact hcond hne
          rw [hnil this]
          omega
      have hrec := ih (cur ++ [sent]) (curSize + sentSize sent)
        (fun s hs => hrest s (List.mem_cons_of_mem _ hs))
        (by intro h; simp at h) hcsize
      omega

/-! ### C9: bounded chunk size -/

/-- C9: if every (stripped, nonempty) sentence has length at most
`chunk_size`, then every chunk emitted by `chunk_text` has string length at
most `chunk_size + chunk_overlap`. -/
theorem chunk_text_bounded (sentences : List String)
    (chunk_size chunk_overlap : Nat)
    (h : ∀ s ∈ (sentences.map strip).filter (fun s => s ≠ ""),
      s.length ≤ chunk_size) :
    ∀ c ∈ chunk_text sentences chunk_size chunk_overlap,
      c.length ≤ chunk_size + chunk_overlap := by
  intro c hc
  obtain ⟨cl, hcl, rfl⟩ := List.mem_map.1 hc
  have hsizes := chunkLoop_chunk_sizes chunk_size chunk_overlap
    ((sentences.map strip).filter (fun s => s ≠ "")) [] 0
    (fun s hs => by have := h s hs; simp [sentSize]; omega)
    (by simp [sentencesSize]) (by omega) cl hcl
  have hjoin := joinSp_length cl hsizes.1
  have := hsizes.2
  omega

/-- C9 witness: a concrete instantiation of `chunk_text_bounded`. -/
theorem chunk_text_bounded_witness :
    (∀ s ∈ ((["ab", "cd", "ef"].map strip).filter (fun s => s ≠ "")),
      s.length ≤ 4) ∧
    ∀ c ∈ chunk_text ["ab", "cd", "ef"] 4 3, c.length ≤ 4 + 3 :=
  ⟨by decide, chunk_text_bounded ["ab", "cd", "ef"] 4 3 (by decide)⟩

theorem sentencesSize_eq (l : List String) :
    sentencesSize l = (l.map String.length).sum + l.length := by
  induction l with
  | nil => simp [sentencesSize]
  | cons s rest ih =>
    rw [sentencesSize_cons, ih]
    simp [sentSize]
    omega

/-! ### C5: chunk coverage -/

/-- C5: over a document whose stripped nonempty sentences have lengths
summing to 250 characters, none exceeding 100 characters,
`chunk_text(text, 100, 20)` emits at least 3 chunks and every sentence
appears (as a whole sentence) in at least one emitted chunk. -/
theorem chunk_text_coverage (sentences : List String)
    (hsum : (((sentences.map strip).filter (fun s => s ≠ "")).map
      String.length).sum = 250)
    (hlen : ∀ s ∈ (sentences.map strip).filter (fun s => s ≠ ""),
      s.length ≤ 100) :
    3 ≤ (chunk_text sentences 100 20).length ∧
    ∀ s ∈ (sentences.map strip).filter (fun s => s ≠ ""),
      ∃ c ∈ chunkSentenceLists sentences 100 20, s ∈ c := by
  constructor
  · have hcount := chunkLoop_count 100 20 121 (by omega)
      ((sentences.map strip).filter (fun s => s ≠ "")) [] 0
      (fun s hs => by have := hlen s hs; simp only [sentSize]; omega)
      (fun _ => rfl) (by omega)
    have hsz : sentencesSize ((sentences.map strip).filter (fun s => s ≠ ""))
        = 250 + ((sentences.map strip).filter (fun s => s ≠ "")).length := by
      rw [sentencesSize_eq, hsum]
    have hlen1 : 1 ≤ ((sentences.map strip).filter (fun s => s ≠ "")).length := by
      rcases hne : (sentences.map strip).filter (fun s => s ≠ "") with _ | ⟨a, l⟩
      · rw [hne] at hsum; simp at hsum
      · simp
    have hmap : (chunk_text sentences 100 20).length =
        (chunkLoop 100 20 ((sentences.map strip).filter (fun s => s ≠ ""))
          [] 0).length := by
      simp [chunk_text, chunkSentenceLists]
    omega
  · intro s hs
    exact chunkLoop_covers_rest 100 20 _ [] 0 s hs

/-- C5 witness: five 50-character sentences instantiate
`chunk_text_coverage`. -/
theorem chunk_text_coverage_witness :
    ((([ "aaaaaaaaaaaaaaaaaaaaaaaaaaaaaaaaaaaaaaaaaaaaaaaaaa",
         "bbbbbbbbbbbbbbbbbbbbbbbbbbbbbbbbbbbbbbbbbbbbbbbbbb",
         "cccccccccccccccccccccccccccccccccccccccccccccccccc",
         "dddddddddddddddddddddddddddddddddddddddddddddddddd",
         "eeeeeeeeeeeeeeeeeeeeeeeeeeeeeeeeeeeeeeeeeeeeeeeeee" ].map strip).filter
        (fun s => s ≠ "")).map String.length).sum = 250 ∧
    3 ≤ (chunk_text
      [ "aaaaaaaaaaaaaaaaaaaaaaaaaaaaaaaaaaaaaaaaaaaaaaaaaa",
        "bbbbbbbbbbbbbbbbbbbbbbbbbbbbbbbbbbbbbbbbbbbbbbbbbb",
        "cccccccccccccccccccccccccccccccccccccccccccccccccc",
        "dddddddddddddddddddddddddddddddddddddddddddddddddd",
        "eeeeeeeeeeeeeeeeeeeeeeeeeeeeeeeeeeeeeeeeeeeeeeeeee" ] 100 20).length :=
  ⟨by decide,
    (chunk_text_coverage _ (by decide) (by decide)).1⟩

/-! ### C6: chunker edge cases (corrected) -/

/-- C6 counterexample: the claim says a sentence longer than `chunk_size` is
emitted *alone* as its own chunk.  With `chunk_size = 10`,
`chunk_overlap = 10` and sentences `["abc", "abcdefghijklmno"]`, the
15-character sentence is emitted together with the overlap-seeded sentence
`"abc"`: the chunks are `[["abc"], ["abc", "abcdefghijklmno"]]` and no chunk
equals `["abcdefghijklmno"]`. -/
theorem chunk_long_sentence_not_alone :
    ("abcdefghijklmno" : String).length > 10 ∧
    chunkSentenceLists ["abc", "abcdefghijklmno"] 10 10 =
      [["abc"], ["abc", "abcdefghijklmno"]] ∧
    ¬ ["abcdefghijklmno"] ∈ chunkSentenceLists ["abc", "abcdefghijklmno"] 10 10
    := by decide

/-- C6 (amended): `chunk_text` on input with no nonempty stripped sentences
yields an empty sequence; a sentence longer than `chunk_size` is emitted
whole inside some chunk — never truncated mid-sentence — and is emitted
alone when it is the entire input (though it may share its chunk with
overlap-seeded preceding sentences); and the trailing partial window is
always emitted: with at least one nonempty sentence the output is nonempty
and every sentence, the trailing ones included, appears in some chunk. -/
theorem chunk_text_edge_cases (chunk_size chunk_overlap : Nat) :
    (∀ sentences : List String,
      (sentences.map strip).filter (fun s => s ≠ "") = [] →
      chunk_text sentences chunk_size chunk_overlap = []) ∧
    (∀ s : String, strip s ≠ "" →
      chunkSentenceLists [s] chunk_size chunk_overlap = [[strip s]]) ∧
    (∀ sentences : List String,
      ∀ s ∈ (sentences.map strip).filter (fun s => s ≠ ""),
      ∃ c ∈ chunkSentenceLists sentences chunk_size chunk_overlap, s ∈ c) ∧
    (∀ sentences : List String,
      (sentences.map strip).filter (fun s => s ≠ "") ≠ [] →
      chunk_text sentences chunk_size chunk_overlap ≠ []) := by
  refine ⟨fun sentences h => ?_, fun s hs => ?_, fun sentences s hs => ?_,
    fun sentences h => ?_⟩
  · unfold chunk_text chunkSentenceLists
    rw [h, chunkLoop]
    simp
  · show chunkLoop chunk_size chunk_overlap
      (([s].map strip).filter (fun t => t ≠ "")) [] 0 = [[strip s]]
    have hf : ([s].map strip).filter (fun t => t ≠ "") = [strip s] := by
      simp [hs]
    rw [hf, chunkLoop, if_neg (by simp), chunkLoop]
    simp
  · exact chunkLoop_covers_rest chunk_size chunk_overlap _ [] 0 s hs
  · have := chunkLoop_ne_nil chunk_size chunk_overlap
      ((sentences.map strip).filter (fun s => s ≠ "")) [] 0 (Or.inr h)
    simp only [chunk_text, chunkSentenceLists, ne_eq, List.map_eq_nil_iff]
    intro hc
    exact this (by simpa using hc)

/-- C6 witness: concrete instantiations of `chunk_text_edge_cases`. -/
theorem chunk_text_edge_cases_witness :
    chunk_text ["  ", ""] 5 2 = [] ∧
    chunkSentenceLists ["hello world, this is long"] 5 2 =
      [["hello world, this is long"]] ∧
    chunk_text ["ab"] 5 2 ≠ [] :=
  ⟨(chunk_text_edge_cases 5 2).1 ["  ", ""] (by decide),
    (chunk_text_edge_cases 5 2).2.1 "hello world, this is long" (by decide),
    (chunk_text_edge_cases 5 2).2.2.2 ["ab"] (by decide)⟩

/-! ### Store lemmas -/

theorem entityMatch_iff (nn ty : String) (e : EntityRow) :
    entityMatch nn ty e = true ↔
      e.normalized_name = nn ∧ e.entity_type = ty := by
  simp [entityMatch]

theorem storeEntities_nil (doc meta : String) (db : DB)
    (emap : String → Option Nat) (c : Nat) :
    storeEntities doc meta [] db emap c = (db, emap, c) := rfl

theorem storeEntities_cons_found (doc meta t ty : String)
    (rest : List (String × String)) (db : DB) (emap : String → Option Nat)
    (c : Nat) (e : EntityRow)
    (h : db.entities.find? (entityMatch (normalize t) ty) = some e) :
    storeEntities doc meta ((t, ty) :: rest) db emap c =
      storeEntities doc meta rest db
        (fun x => if x = t then some e.id else emap x) c := by
  rw [storeEntities, h]

theorem storeEntities_cons_insert (doc meta t ty : String)
    (rest : List (String × String)) (db : DB) (emap : String → Option Nat)
    (c : Nat)
    (h : db.entities.find? (entityMatch (normalize t) ty) = none) :
    storeEntities doc meta ((t, ty) :: rest) db emap c =
      storeEntities doc meta rest
        ⟨db.entities ++ [⟨db.next_entity_id, t, ty, normalize t, doc, meta⟩],
          db.relationships, db.next_entity_id + 1⟩
        (fun x => if x = t then some db.next_entity_id else emap x)
        (c + 1) := by
  rw [storeEntities, h]

theorem storeRelations_nil (meta : String) (emap : String → Option Nat)
    (db : DB) (c : Nat) :
    storeRelations meta emap [] db c = .ok (db, c) := rfl

theorem storeRelations_cons_unres (meta : String) (emap : String → Option Nat)
    (ht rt tt : String) (rest : List (String × String × String)) (db : DB)
    (c : Nat) (h : emap ht = none ∨ emap tt = none) :
    storeRelations meta emap ((ht, rt, tt) :: rest) db c =
      storeRelations meta emap rest db c := by
  rcases h with h | h
  · rw [storeRelations, h]
  · rw [storeRelations]
    cases hht : emap ht with
    | none => rfl
    | some hid => rw [h]

theorem storeRelations_cons_found (meta : String) (emap : String → Option Nat)
    (ht rt tt : String) (rest : List (String × String × String)) (db : DB)
    (c : Nat) (hid tid : Nat) (r : RelationshipRow)
    (hh : emap ht = some hid) (htl : emap tt = some tid)
    (hf : db.relationships.find? (relationMatch hid tid rt) = some r) :
    storeRelations meta emap ((ht, rt, tt) :: rest) db c =
      storeRelations meta emap rest db c := by
  rw [storeRelations, hh, htl]
  simp only [hf]

theorem storeRelations_cons_insert (meta : String) (emap : String → Option Nat)
    (ht rt tt : String) (rest : List (String × String × String)) (db : DB)
    (c : Nat) (hid tid : Nat)
    (hh : emap ht = some hid) (htl : emap tt = some tid)
    (hf : db.relationships.find? (relationMatch hid tid rt) = none)
    (hne : hid ≠ tid) :
    storeRelations meta emap ((ht, rt, tt) :: rest) db c =
      storeRelations meta emap rest
        { db with relationships := db.relationships ++
            [⟨hid, tid, rt, ht ++ " " ++ rt ++ " " ++ tt, meta⟩] }
        (c + 1) := by
  rw [storeRelations, hh, htl]
  simp only [hf]
  unfold insertRelationship
  rw [if_neg hne]

theorem storeRelations_cons_self (meta : String) (emap : String → Option Nat)
    (ht rt tt : String) (rest : List (String × String × String)) (db : DB)
    (c : Nat) (hid tid : Nat)
    (hh : emap ht = some hid) (htl : emap tt = some tid)
    (hf : db.relationships.find? (relationMatch hid tid rt) = none)
    (heq : hid = tid) :
    storeRelations meta emap ((ht, rt, tt) :: rest) db c =
      .error "relationships_check: head_entity_id <> tail_entity_id" := by
  rw [storeRelations, hh, htl]
  simp only [hf]
  unfold insertRelationship
  rw [if_pos heq]

theorem storeEntities_mono (doc meta : String) :
    ∀ (ents : List (String × String)) (db : DB)
      (emap : String → Option Nat) (c : Nat),
      ∃ new,
        (storeEntities doc meta ents db emap c).1.entities =
          db.entities ++ new ∧
        (storeEntities doc meta ents db emap c).1.relationships =
          db.relationships := by
  intro ents
  induction ents with
  | nil => intro db emap c; exact ⟨[], by simp [storeEntities_nil], by simp [storeEntities_nil]⟩
  | cons e rest ih =>
    intro db emap c
    obtain ⟨t, ty⟩ := e
    cases hfind : db.entities.find? (entityMatch (normalize t) ty) with
    | some ex =>
        rw [storeEntities_cons_found doc meta t ty rest db emap c ex hfind]
        exact ih db _ c
    | none =>
        rw [storeEntities_cons_insert doc meta t ty rest db emap c hfind]
        obtain ⟨new, h1, h2⟩ := ih
          ⟨db.entities ++ [⟨db.next_entity_id, t, ty, normalize t, doc, meta⟩],
            db.relationships, db.next_entity_id + 1⟩ _ (c + 1)
        exact ⟨⟨db.next_entity_id, t, ty, normalize t, doc, meta⟩ :: new,
          by rw [h1]; simp, h2⟩

theorem storeEntities_unique (doc meta : String) :
    ∀ (ents : List (String × String)) (db : DB)
      (emap : String → Option Nat) (c : Nat),
      EntIdentUnique db →
      EntIdentUnique (storeEntities doc meta ents db emap c).1 := by
  intro ents
  induction ents with
  | nil => intro db emap c h; simpa [storeEntities_nil] using h
  | cons e rest ih =>
    intro db emap c h
    obtain ⟨t, ty⟩ := e
    cases hfind : db.entities.find? (entityMatch (normalize t) ty) with
    | some ex =>
        rw [storeEntities_cons_found doc meta t ty rest db emap c ex hfind]
        exact ih db _ c h
    | none =>
        rw [storeEntities_cons_insert doc meta t ty rest db emap c hfind]
        refine ih _ _ (c + 1) ?_
        unfold EntIdentUnique at h ⊢
        simp only []
        rw [List.pairwise_append]
        refine ⟨h, by simp, ?_⟩
        intro a ha b hb
        simp only [List.mem_singleton] at hb
        subst hb
        have := List.find?_eq_none.1 hfind a ha
        simp only [entityMatch_iff] at this
        simp only [not_and]
        intro hnn hty
        exact this ⟨hnn, hty⟩

theorem storeRelations_mono (meta : String) (emap : String → Option Nat) :
    ∀ (rels : List (String × String × String)) (db : DB) (c : Nat)
      (db₂ : DB) (k : Nat),
      storeRelations meta emap rels db c = .ok (db₂, k) →
      ∃ new, db₂.relationships = db.relationships ++ new ∧
        db₂.entities = db.entities ∧
        db₂.next_entity_id = db.next_entity_id := by
  intro rels
  induction rels with
  | nil =>
    intro db c db₂ k h
    rw [storeRelations_nil] at h
    cases h
    exact ⟨[], by simp, rfl, rfl⟩
  | cons rel rest ih =>
    intro db c db₂ k h
    obtain ⟨ht, rt, tt⟩ := rel
    cases hh : emap ht with
    | none =>
        rw [storeRelations_cons_unres meta emap ht rt tt rest db c (Or.inl hh)] at h
        exact ih db c db₂ k h
    | some hid =>
      cases htl : emap tt with
      | none =>
          rw [storeRelations_cons_unres meta emap ht rt tt rest db c (Or.inr htl)] at h
          exact ih db c db₂ k h
      | some tid =>
        cases hfind : db.relationships.find? (relationMatch hid tid rt) with
        | some r =>
            rw [storeRelations_cons_found meta emap ht rt tt rest db c hid tid r hh htl hfind] at h
            exact ih db c db₂ k h
        | none =>
          by_cases heq : hid = tid
          · rw [storeRelations_cons_self meta emap ht rt tt rest db c hid tid hh htl hfind heq] at h
            cases h
          · rw [storeRelations_cons_insert meta emap ht rt tt rest db c hid tid hh htl hfind heq] at h
            obtain ⟨new, h1, h2, h3⟩ := ih _ _ db₂ k h
            exact ⟨_ :: new, by rw [h1, List.append_assoc]; rfl, h2, h3⟩

/-! ### C3: entity identity is `(normalizedName, entityType)` -/

/-- C3: identity resolution is by lower-cased trimmed name plus type: a
successful ingest preserves the invariant that at most one entity row exists
per `(normalized_name, entity_type)` pair; concretely, ingesting `"Apple"`
and `"apple "` with the same type stores one row, while `"Apple"` (ORG) and
`"Apple"` (PERSON) store two distinct rows. -/
theorem entity_identity_resolution :
    (∀ (db : DB) (doc title : String) (r : ExtractionResult) (meta : String)
        (db' : DB) (res : StoreResult),
      EntIdentUnique db →
      store_extraction_result db doc title r meta = .ok (db', res) →
      EntIdentUnique db') ∧
    store_extraction_result emptyDB "d" "t"
        ⟨[("Apple", "T"), ("apple ", "T")], []⟩ "" =
      .ok (⟨[⟨0, "Apple", "T", "apple", "d", ""⟩], [], 1⟩, ⟨1, 0, 2, 0⟩) ∧
    store_extraction_result emptyDB "d" "t"
        ⟨[("Apple", "ORG"), ("Apple", "PERSON")], []⟩ "" =
      .ok (⟨[⟨0, "Apple", "ORG", "apple", "d", ""⟩,
             ⟨1, "Apple", "PERSON", "apple", "d", ""⟩], [], 2⟩,
        ⟨2, 0, 2, 0⟩) := by
  refine ⟨?_, by decide, by decide⟩
  intro db doc title r meta db' res hu h
  unfold store_extraction_result at h
  cases hrel : storeRelations meta
      (storeEntities doc meta r.entities db (fun _ => none) 0).2.1 r.relations
      (storeEntities doc meta r.entities db (fun _ => none) 0).1 0 with
  | error e => rw [hrel] at h; cases h
  | ok p =>
    rw [hrel] at h
    cases h
    obtain ⟨_, _, hent, _⟩ := storeRelations_mono meta _ r.relations _ 0 p.1 p.2 hrel
    have := storeEntities_unique doc meta r.entities db (fun _ => none) 0 hu
    unfold EntIdentUnique at this ⊢
    rw [hent]
    exact this

/-- C3 witness: `entity_identity_resolution` applied to the empty database
and a two-entity result that collapses to one row. -/
theorem entity_identity_resolution_witness :
    EntIdentUnique emptyDB ∧
    store_extraction_result emptyDB "d" "t"
        ⟨[("Apple", "T"), ("apple ", "T")], []⟩ "" =
      .ok (⟨[⟨0, "Apple", "T", "apple", "d", ""⟩], [], 1⟩, ⟨1, 0, 2, 0⟩) ∧
    EntIdentUnique ⟨[⟨0, "Apple", "T", "apple", "d", ""⟩], [], 1⟩ :=
  ⟨List.Pairwise.nil, by decide,
    entity_identity_resolution.1 emptyDB "d" "t"
      ⟨[("Apple", "T"), ("apple ", "T")], []⟩ ""
      ⟨[⟨0, "Apple", "T", "apple", "d", ""⟩], [], 1⟩ ⟨1, 0, 2, 0⟩
      List.Pairwise.nil (by decide)⟩

/-! ### C2: self-relations are not validated and dropped (code bug) -/

/-- C2 (code-bug evidence): `store_extraction_result` performs no
validate-and-drop of self-relations.  On the failing input below — two valid
entities, one valid relation and one relation whose head and tail resolve to
the same entity id — the insert attempt trips the (spec-modelled) check
constraint, the exception aborts the whole ingest, and the already-validated
tuples of the same call are lost with it; the same input without the
self-relation commits fine.  The claim (and spec §7) requires the tuple to
be dropped before insertion with the rest of the call preserved. -/
theorem store_self_relation_aborts :
    store_extraction_result emptyDB "d" "t"
        ⟨[("A", "T"), ("B", "T")], [("A", "likes", "B"), ("A", "likes", "A")]⟩
        "" =
      .error "relationships_check: head_entity_id <> tail_entity_id" ∧
    store_extraction_result emptyDB "d" "t"
        ⟨[("A", "T"), ("B", "T")], [("A", "likes", "B")]⟩ "" =
      .ok (⟨[⟨0, "A", "T", "a", "d", ""⟩, ⟨1, "B", "T", "b", "d", ""⟩],
            [⟨0, 1, "likes", "A likes B", ""⟩], 2⟩,
        ⟨2, 1, 2, 1⟩) := by
  exact ⟨by decide, by decide⟩

/-! ### C4: unresolvable references are skipped, not errors -/

/-- C4: a relation tuple whose head or tail text is absent from the per-call
entity map built from this result's entity list is dropped: processing the
tuple equals processing the remaining tuples from the same state — no
relationship row is created, the counter is not incremented, no exception is
raised, and the loop continues. -/
theorem store_skips_unresolvable (doc_id metadata : String)
    (ents : List (String × String)) (db db₁ : DB)
    (head_text relation_type tail_text : String)
    (rest : List (String × String × String)) (stored : Nat)
    (h : (storeEntities doc_id metadata ents db (fun _ => none) 0).2.1
        head_text = none ∨
      (storeEntities doc_id metadata ents db (fun _ => none) 0).2.1
        tail_text = none) :
    storeRelations metadata
        (storeEntities doc_id metadata ents db (fun _ => none) 0).2.1
        ((head_text, relation_type, tail_text) :: rest) db₁ stored =
      storeRelations metadata
        (storeEntities doc_id metadata ents db (fun _ => none) 0).2.1
        rest db₁ stored :=
  storeRelations_cons_unres _ _ _ _ _ _ _ _ h

/-- C4 witness: with entity list `[("Apple", "ORG")]` the text `"apple"`
does not resolve, so a relation headed by it is skipped. -/
theorem store_skips_unresolvable_witness :
    ((storeEntities "d" "" [("Apple", "ORG")] emptyDB (fun _ => none) 0).2.1
        "apple" = none ∨
      (storeEntities "d" "" [("Apple", "ORG")] emptyDB (fun _ => none) 0).2.1
        "Apple" = none) ∧
    storeRelations ""
        (storeEntities "d" "" [("Apple", "ORG")] emptyDB (fun _ => none) 0).2.1
        [("apple", "rel", "Apple")]
        (storeEntities "d" "" [("Apple", "ORG")] emptyDB (fun _ => none) 0).1
        0 =
      storeRelations ""
        (storeEntities "d" "" [("Apple", "ORG")] emptyDB (fun _ => none) 0).2.1
        []
        (storeEntities "d" "" [("Apple", "ORG")] emptyDB (fun _ => none) 0).1
        0 :=
  ⟨Or.inl (by decide),
    store_skips_unresolvable "d" "" [("Apple", "ORG")] emptyDB _
      "apple" "rel" "Apple" [] 0 (Or.inl (by decide))⟩

/-! ### C8: endpoint resolution is exact surface-text equality -/

theorem storeEntities_map_none (doc meta : String) :
    ∀ (ents : List (String × String)) (db : DB)
      (emap : String → Option Nat) (c : Nat) (t : String),
      (storeEntities doc meta ents db emap c).2.1 t = none ↔
        (t ∉ ents.map Prod.fst ∧ emap t = none) := by
  intro ents
  induction ents with
  | nil => intro db emap c t; simp [storeEntities_nil]
  | cons e rest ih =>
    intro db emap c t
    obtain ⟨tx, ty⟩ := e
    cases hfind : db.entities.find? (entityMatch (normalize tx) ty) with
    | some ex =>
        rw [storeEntities_cons_found doc meta tx ty rest db emap c ex hfind, ih]
        by_cases htx : t = tx <;> simp [htx]
    | none =>
        rw [storeEntities_cons_insert doc meta tx ty rest db emap c hfind, ih]
        by_cases htx : t = tx <;> simp [htx]

/-- C8: during ingestion a relation endpoint resolves iff its exact text
occurs among the entity texts of the same extraction result (case- and
whitespace-sensitive, not normalized); concretely, a relation with head
`"apple"` is dropped when the entity list contains only `"Apple"`, even
though both normalize to the same stored identity. -/
theorem relation_resolution_exact :
    (∀ (doc meta : String) (ents : List (String × String)) (db : DB)
        (t : String),
      (storeEntities doc meta ents db (fun _ => none) 0).2.1 t = none ↔
        t ∉ ents.map Prod.fst) ∧
    store_extraction_result emptyDB "d" "t"
        ⟨[("Apple", "ORG")], [("apple", "rel", "Apple")]⟩ "" =
      .ok (⟨[⟨0, "Apple", "ORG", "apple", "d", ""⟩], [], 1⟩, ⟨1, 0, 1, 1⟩) := by
  constructor
  · intro doc meta ents db t
    rw [storeEntities_map_none]
    simp
  · decide

/-! ### C10: totals are the input lengths -/

/-- C10: the `total_entities` and `total_relations` fields returned by a
successful `store_extraction_result` equal the lengths of the input result's
entity and relation lists, whatever the database held; ingesting an
empty extraction result returns all four counters zero and leaves the
database unchanged. -/
theorem store_totals :
    (∀ (db : DB) (doc title : String) (r : ExtractionResult) (meta : String)
        (p : DB × StoreResult),
      store_extraction_result db doc title r meta = .ok p →
      p.2.total_entities = r.entities.length ∧
      p.2.total_relations = r.relations.length) ∧
    (∀ (db : DB) (doc title meta : String),
      store_extraction_result db doc title ⟨[], []⟩ meta =
        .ok (db, ⟨0, 0, 0, 0⟩)) := by
  constructor
  · intro db doc title r meta p h
    unfold store_extraction_result at h
    cases hrel : storeRelations meta
        (storeEntities doc meta r.entities db (fun _ => none) 0).2.1
        r.relations
        (storeEntities doc meta r.entities db (fun _ => none) 0).1 0 with
    | error e => rw [hrel] at h; cases h
    | ok q =>
        obtain ⟨db2, rs⟩ := q
        rw [hrel] at h
        cases h
        exact ⟨rfl, rfl⟩
  · intro db doc title meta
    rfl

/-- C10 witness: a concrete successful call instantiates `store_totals`. -/
theorem store_totals_witness :
    store_extraction_result emptyDB "d" "t" ⟨[("A", "T")], []⟩ "" =
      .ok (⟨[⟨0, "A", "T", "a", "d", ""⟩], [], 1⟩, ⟨1, 0, 1, 0⟩) ∧
    (StoreResult.mk 1 0 1 0).total_entities = 1 ∧
    (StoreResult.mk 1 0 1 0).total_relations = 0 :=
  ⟨by decide,
    store_totals.1 emptyDB "d" "t" ⟨[("A", "T")], []⟩ ""
      (⟨[⟨0, "A", "T", "a", "d", ""⟩], [], 1⟩, ⟨1, 0, 1, 0⟩) (by decide)⟩

/-! ### C1: idempotence of ingestion -/

theorem storeEntities_idem (doc meta : String) :
    ∀ (ents : List (String × String)) (db : DB) (emap : String → Option Nat)
      (c c' : Nat) (dbX : DB),
      dbX.entities = (storeEntities doc meta ents db emap c).1.entities →
      storeEntities doc meta ents dbX emap c' =
        (dbX, (storeEntities doc meta ents db emap c).2.1, c') := by
  intro ents
  induction ents with
  | nil =>
    intro db emap c c' dbX h
    rw [storeEntities_nil, storeEntities_nil]
  | cons e rest ih =>
    intro db emap c c' dbX h
    obtain ⟨t, ty⟩ := e
    cases hfind : db.entities.find? (entityMatch (normalize t) ty) with
    | some ex =>
        rw [storeEntities_cons_found doc meta t ty rest db emap c ex hfind]
          at h ⊢
        have hfindX : dbX.entities.find? (entityMatch (normalize t) ty) =
            some ex := by
          obtain ⟨new, hnew, _⟩ := storeEntities_mono doc meta rest db
            (fun x => if x = t then some ex.id else emap x) c
          rw [h, hnew]
          exact find?_append_of_some new hfind
        rw [storeEntities_cons_found doc meta t ty rest dbX emap c' ex hfindX]
        exact ih db _ c c' dbX h
    | none =>
        rw [storeEntities_cons_insert doc meta t ty rest db emap c hfind]
          at h ⊢
        have hfindX : dbX.entities.find? (entityMatch (normalize t) ty) =
            some ⟨db.next_entity_id, t, ty, normalize t, doc, meta⟩ := by
          obtain ⟨new, hnew, _⟩ := storeEntities_mono doc meta rest
            ⟨db.entities ++
                [⟨db.next_entity_id, t, ty, normalize t, doc, meta⟩],
              db.relationships, db.next_entity_id + 1⟩
            (fun x => if x = t then some db.next_entity_id else emap x) (c + 1)
          rw [h, hnew]
          show ((db.entities ++ _) ++ new).find? _ = _
          rw [List.append_assoc, find?_append_of_none _ hfind,
            List.singleton_append,
            List.find?_cons_of_pos _ (by simp [entityMatch])]
        rw [storeEntities_cons_found doc meta t ty rest dbX emap c'
          ⟨db.next_entity_id, t, ty, normalize t, doc, meta⟩ hfindX]
        exact ih _ _ (c + 1) c' dbX h

theorem storeRelations_idem (meta : String) (emap : String → Option Nat) :
    ∀ (rels : List (String × String × String)) (db : DB) (c : Nat)
      (db₂ : DB) (k c' : Nat),
      storeRelations meta emap rels db c = .ok (db₂, k) →
      storeRelations meta emap rels db₂ c' = .ok (db₂, c') := by
  intro rels
  induction rels with
  | nil =>
    intro db c db₂ k c' h
    rw [storeRelations_nil] at h
    cases h
    rw [storeRelations_nil]
  | cons rel rest ih =>
    intro db c db₂ k c' h
    obtain ⟨ht, rt, tt⟩ := rel
    cases hh : emap ht with
    | none =>
        rw [storeRelations_cons_unres meta emap ht rt tt rest db c
          (Or.inl hh)] at h
        rw [storeRelations_cons_unres meta emap ht rt tt rest db₂ c'
          (Or.inl hh)]
        exact ih db c db₂ k c' h
    | some hid =>
      cases htl : emap tt with
      | none =>
          rw [storeRelations_cons_unres meta emap ht rt tt rest db c
            (Or.inr htl)] at h
          rw [storeRelations_cons_unres meta emap ht rt tt rest db₂ c'
            (Or.inr htl)]
          exact ih db c db₂ k c' h
      | some tid =>
        cases hfind : db.relationships.find? (relationMatch hid tid rt) with
        | some r =>
            rw [storeRelations_cons_found meta emap ht rt tt rest db c hid tid
              r hh htl hfind] at h
            have hfindX : db₂.relationships.find?
                (relationMatch hid tid rt) = some r := by
              obtain ⟨new, hnew, _, _⟩ :=
                storeRelations_mono meta emap rest db c db₂ k h
              rw [hnew]
              exact find?_append_of_some new hfind
            rw [storeRelations_cons_found meta emap ht rt tt rest db₂ c' hid
              tid r hh htl hfindX]
            exact ih db c db₂ k c' h
        | none =>
          by_cases heq : hid = tid
          · rw [storeRelations_cons_self meta emap ht rt tt rest db c hid tid
              hh htl hfind heq] at h
            cases h
          · rw [storeRelations_cons_insert meta emap ht rt tt rest db c hid
              tid hh htl hfind heq] at h
            have hfindX : db₂.relationships.find?
                (relationMatch hid tid rt) =
                some ⟨hid, tid, rt, ht ++ " " ++ rt ++ " " ++ tt, meta⟩ := by
              obtain ⟨new, hnew, _, _⟩ :=
                storeRelations_mono meta emap rest _ (c + 1) db₂ k h
              rw [hnew]
              show ((db.relationships ++ _) ++ new).find? _ = _
              rw [List.append_assoc, find?_append_of_none _ hfind,
                List.singleton_append,
                List.find?_cons_of_pos _ (by simp [relationMatch])]
            rw [storeRelations_cons_found meta emap ht rt tt rest db₂ c' hid
              tid _ hh htl hfindX]
            exact ih _ (c + 1) db₂ k c' h

/-- C1: ingestion is idempotent — if `store_extraction_result` succeeds,
running it again immediately with the same arguments returns
`entities_stored = 0` and `relations_stored = 0` and leaves the database
exactly as the first call left it, so the stored entity and relationship
totals are unchanged. -/
theorem store_idempotent (db : DB) (doc title : String) (r : ExtractionResult)
    (meta : String) (db1 : DB) (c1 : StoreResult)
    (h : store_extraction_result db doc title r meta = .ok (db1, c1)) :
    store_extraction_result db1 doc title r meta =
      .ok (db1, ⟨0, 0, r.entities.length, r.relations.length⟩) := by
  unfold store_extraction_result at h ⊢
  cases hrel : storeRelations meta
      (storeEntities doc meta r.entities db (fun _ => none) 0).2.1
      r.relations
      (storeEntities doc meta r.entities db (fun _ => none) 0).1 0 with
  | error e => rw [hrel] at h; cases h
  | ok q =>
    obtain ⟨db2, rs⟩ := q
    rw [hrel] at h
    injection h with h2
    injection h2 with ha hb
    subst ha
    subst hb
    obtain ⟨newr, _, hent2, _⟩ :=
      storeRelations_mono meta _ r.relations _ 0 db2 rs hrel
    have hE2 := storeEntities_idem doc meta r.entities db (fun _ => none)
      0 0 db2 hent2
    rw [hE2]
    have hR2 := storeRelations_idem meta
      (storeEntities doc meta r.entities db (fun _ => none) 0).2.1
      r.relations
      (storeEntities doc meta r.entities db (fun _ => none) 0).1 0 db2 rs 0
      hrel
    rw [hR2]

/-- C1 witness: a concrete first ingest followed by the idempotent rerun. -/
theorem store_idempotent_witness :
    store_extraction_result emptyDB "d" "t"
        ⟨[("A", "T"), ("B", "T")], [("A", "likes", "B")]⟩ "x" =
      .ok (⟨[⟨0, "A", "T", "a", "d", "x"⟩, ⟨1, "B", "T", "b", "d", "x"⟩],
            [⟨0, 1, "likes", "A likes B", "x"⟩], 2⟩,
        ⟨2, 1, 2, 1⟩) ∧
    store_extraction_result
        ⟨[⟨0, "A", "T", "a", "d", "x"⟩, ⟨1, "B", "T", "b", "d", "x"⟩],
          [⟨0, 1, "likes", "A likes B", "x"⟩], 2⟩ "d" "t"
        ⟨[("A", "T"), ("B", "T")], [("A", "likes", "B")]⟩ "x" =
      .ok (⟨[⟨0, "A", "T", "a", "d", "x"⟩, ⟨1, "B", "T", "b", "d", "x"⟩],
            [⟨0, 1, "likes", "A likes B", "x"⟩], 2⟩,
        ⟨0, 0, 2, 1⟩) :=
  ⟨by decide,
    store_idempotent emptyDB "d" "t"
      ⟨[("A", "T"), ("B", "T")], [("A", "likes", "B")]⟩ "x"
      ⟨[⟨0, "A", "T", "a", "d", "x"⟩, ⟨1, "B", "T", "b", "d", "x"⟩],
        [⟨0, 1, "likes", "A likes B", "x"⟩], 2⟩
      ⟨2, 1, 2, 1⟩ (by decide)⟩

end Wiki
